import Mathlib

/-!
Verification of the actor-critic policy implementation in
`playground/policies/actor_critic.py` (the single source file of the
repository under review).

The development shallowly embeds the learning core:

* `Record`, `ReplayMemory.add/size/pop` — the experience buffer
  (the buffer class itself lives in `playground/policies/base.py`,
  outside the reviewed tree, so it is modelled from the specification);
* `drainTrain`, `runSteps`, `runEpisodes` — the training loop of
  `ActorCriticPolicy.train` (lines 145–225);
* `Schedule`, `episodeDecay`, `epsIterate` — the per-episode learning-rate
  and epsilon schedules (lines 151–157 and 210–214);
* `act`, `softmax`, `categoricalSample` — action selection (lines 50–59);
* `oneHot`, `broadcastMul`, `predQ` — the critic head and td-error
  computation of `build` (lines 94–99);
* `Expr`, `gradE`, `lossActorE` — a small autodiff language used to state
  the stop-gradient boundary of the actor loss (lines 113–127).

Machine reals are modelled by `ℚ`; neural networks, optimizers and the
environment are external collaborators and enter as opaque function
parameters, exactly as the spec treats them.
-/

/-- One experience tuple, `Record = namedtuple('Record', ['s', 'a', 'r', 'td_target'])`
(line 19 of the source).  `S` is the raw observation type. -/
structure Record (S : Type) where
  s : S
  a : Nat
  r : ℚ
  td_target : ℚ
deriving DecidableEq

/-- A popped batch in column-major form: one array per `Record` field. -/
structure Batch (S : Type) where
  s : List S
  a : List Nat
  r : List ℚ
  td_target : List ℚ
deriving DecidableEq

/-- Failure raised by `ReplayMemory.pop` when fewer records are stored than
requested. -/
inductive ReplayError where
  | insufficientData
deriving DecidableEq

/-- Modelled from the spec: `ReplayMemory` is an ordered sequence of `Record`
(the class lives in `playground/policies/base.py`, which is not part of the
reviewed sources); the policy constructs it as `ReplayMemory(tuple_class=Record)`. -/
abbrev ReplayMemory (S : Type) := List (Record S)

namespace ReplayMemory

/-- Modelled from the spec: `add(record)` appends one Record and always
succeeds. -/
def add (mem : ReplayMemory S) (rcd : Record S) : ReplayMemory S :=
  mem ++ [rcd]

/-- Modelled from the spec: `size` is the current count of unconsumed
records. -/
def size (mem : ReplayMemory S) : Nat :=
  mem.length

/-- Reorganizes a list of records into column-major form, one array per
field. -/
def toBatch (rs : List (Record S)) : Batch S :=
  ⟨rs.map (fun rcd => rcd.s), rs.map (fun rcd => rcd.a),
   rs.map (fun rcd => rcd.r), rs.map (fun rcd => rcd.td_target)⟩

/-- Modelled from the spec: `pop(n)` requires `size >= n`, failing with
`InsufficientDataError` otherwise; on success it returns the `n`
earliest-inserted records reorganized into one array per field and removes
them from the buffer. -/
def pop (n : Nat) (mem : ReplayMemory S) :
    Except ReplayError (Batch S × ReplayMemory S) :=
  if n ≤ mem.length then
    Except.ok (toBatch (mem.take n), mem.drop n)
  else
    Except.error ReplayError.insufficientData

end ReplayMemory

/-- The batch-drain `while` loop of `train` (lines 189–201): while the buffer
holds at least `bs` records, pop a batch of `bs` and run one fused update
`upd` on it.  Returns the final parameters, the list of batches consumed (in
order) and the leftover memory.  (For `bs = 0` the Python loop would never
terminate; the definition returns immediately, and every theorem that touches
this configuration assumes `0 < bs` as the code's `batch_size = 32` default
guarantees.) -/
def drainTrain {S P : Type} (bs : Nat) (upd : P → Batch S → P)
    (θ : P) (mem : ReplayMemory S) :
    P × List (Batch S) × ReplayMemory S :=
  if h : 0 < bs ∧ bs ≤ mem.length then
    let b := ReplayMemory.toBatch (mem.take bs)
    let dr := drainTrain bs upd (upd θ b) (mem.drop bs)
    (dr.1, b :: dr.2.1, dr.2.2)
  else
    (θ, [], mem)
termination_by mem.length
decreasing_by
  simp only [List.length_drop]
  omega

/-- The parameters of the training loop that stay fixed for a run:
discount `gamma`, `batchSize`, the two learning-rate decay factors
(lines 210–211), the per-episode epsilon decrement (line 156), the
observation flattener `obs_to_inputs` (line 75), the critic evaluation
`critic.eval({states: [ob]})[0][0]` (line 181) as a black-box function of the
current parameters, and the fused `sess.run(train_ops, ...)` parameter update
(lines 191–200) as a black-box function of the fed learning rates and the
batch. -/
structure TrainCfg (S P : Type) where
  gamma : ℚ
  batchSize : Nat
  lrADecay : ℚ
  lrCDecay : ℚ
  epsDrop : ℚ
  flat : S → List ℚ
  criticEval : P → S → ℚ
  trainUpd : ℚ → ℚ → P → Batch S → P

/-- One environment step as seen by the loop body: the action taken and the
`(ob_next, r)` pair returned by `env.step` (line 171).  The episode's `done`
flag is encoded by the list of steps ending. -/
structure StepIn (S : Type) where
  a : Nat
  obNext : S
  r : ℚ
deriving DecidableEq

/-- Everything the step loop of one episode produces: `archive` is the list of
records pushed into the replay memory, in insertion order; `locals` is the
local per-episode `obs` list built by `obs.append(self.obs_to_inputs(ob))`
(line 175); `batches` are the batches consumed by the drain loop; `thetaF` and
`memF` are the final parameters and leftover memory. -/
structure RunOut (S P : Type) where
  archive : List (Record S)
  locals : List (List ℚ)
  batches : List (Batch S)
  thetaF : P
  memF : ReplayMemory S

/-- The step loop of `train` (lines 169–201): for each step, compute
`td_target = r + gamma * critic(ob_next)` with the CURRENT parameters
(lines 180–183), push `Record(ob, a, r, td_target)` (line 185), then drain
full batches (lines 189–201).  `lrC`/`lrA` are the learning rates fed to the
fused update; they are constant within an episode. -/
def runSteps {S P : Type} (cfg : TrainCfg S P) (lrC lrA : ℚ) :
    S → P → ReplayMemory S → List (StepIn S) → RunOut S P
  | _, θ, mem, [] => ⟨[], [], [], θ, mem⟩
  | ob, θ, mem, inp :: rest =>
    let td := inp.r + cfg.gamma * cfg.criticEval θ inp.obNext
    let rcd : Record S := ⟨ob, inp.a, inp.r, td⟩
    let dr := drainTrain cfg.batchSize (cfg.trainUpd lrC lrA) θ
      (ReplayMemory.add mem rcd)
    let out := runSteps cfg lrC lrA inp.obNext dr.1 dr.2.2 rest
    ⟨rcd :: out.archive, cfg.flat ob :: out.locals, dr.2.1 ++ out.batches,
     out.thetaF, out.memF⟩

/-- The critic parameters in force at the moment each transition's td-target
is computed: the parameters on entry to that step, before the drain loop of
the same step may train on the freshly pushed record. -/
def stepParams {S P : Type} (cfg : TrainCfg S P) (lrC lrA : ℚ) :
    S → P → ReplayMemory S → List (StepIn S) → List P
  | _, _, _, [] => []
  | ob, θ, mem, inp :: rest =>
    let td := inp.r + cfg.gamma * cfg.criticEval θ inp.obNext
    let rcd : Record S := ⟨ob, inp.a, inp.r, td⟩
    let dr := drainTrain cfg.batchSize (cfg.trainUpd lrC lrA) θ
      (ReplayMemory.add mem rcd)
    θ :: stepParams cfg lrC lrA inp.obNext dr.1 dr.2.2 rest

/-- The schedule state owned by the training loop: the two learning rates and
the exploration rate (`lr_c`, `lr_a` initialized at lines 151–152, `eps = .5`
at line 154). -/
structure Schedule where
  lr_a : ℚ
  lr_c : ℚ
  eps : ℚ
deriving DecidableEq

/-- The epsilon update performed once per episode (lines 213–214):
`if eps > 0.01: eps -= eps_drop`. -/
def epsNext (d e : ℚ) : ℚ :=
  if e > 1/100 then e - d else e

/-- `epsNext` iterated `k` times: the exploration rate after `k` completed
episodes, starting from `e`. -/
def epsIterate (d e : ℚ) : Nat → ℚ
  | 0 => e
  | k + 1 => epsNext d (epsIterate d e k)

/-- The per-episode step of the epsilon schedule (line 156):
`eps_drop = (eps - 0.01) / annealing_episodes` with the initial `eps = .5`
hard-coded at line 154. -/
def epsDropOf (A : Nat) : ℚ :=
  (1/2 - 1/100) / A

/-- The end-of-episode schedule update (lines 210–214): multiply both
learning rates by their decay factors, unconditionally, and apply the clamped
epsilon decrement. -/
def episodeDecay (ad cd d : ℚ) (sch : Schedule) : Schedule :=
  ⟨sch.lr_a * ad, sch.lr_c * cd, epsNext d sch.eps⟩

/-- `episodeDecay` iterated `k` times: the schedule state after `k` completed
episodes. -/
def scheduleAfter (ad cd d : ℚ) (sch : Schedule) : Nat → Schedule
  | 0 => sch
  | k + 1 => episodeDecay ad cd d (scheduleAfter ad cd d sch k)

/-- One episode as seen by the loop: the observation returned by
`env.reset()` (line 160) and the environment's step responses. -/
structure Episode (S : Type) where
  ob0 : S
  steps : List (StepIn S)

/-- Per-episode summary recorded by the episode loop: the replay memory at
episode start, the batches trained on during the episode, and the memory,
parameters and schedule at episode end. -/
structure EpisodeEnd (S P : Type) where
  memStart : ReplayMemory S
  batches : List (Batch S)
  memEnd : ReplayMemory S
  thetaEnd : P
  schedEnd : Schedule

/-- The episode loop of `train` (lines 159–214): each episode resets the
environment and runs the step loop with the schedule's current learning
rates, then applies the end-of-episode schedule decay.  The replay memory and
the parameters thread through unchanged from one episode to the next — no
clearing happens at the boundary.  Returns the per-episode trace together
with the final schedule, parameters and memory. -/
def runEpisodes {S P : Type} (cfg : TrainCfg S P) :
    Schedule → P → ReplayMemory S → List (Episode S) →
    List (EpisodeEnd S P) × Schedule × P × ReplayMemory S
  | sch, θ, mem, [] => ([], sch, θ, mem)
  | sch, θ, mem, ep :: rest =>
    let out := runSteps cfg sch.lr_c sch.lr_a ep.ob0 θ mem ep.steps
    let sch' := episodeDecay cfg.lrADecay cfg.lrCDecay cfg.epsDrop sch
    let next := runEpisodes cfg sch' out.thetaF out.memF rest
    (⟨mem, out.batches, out.memF, out.thetaF, sch'⟩ :: next.1, next.2)

/-- `tf.nn.softmax` applied to the actor logits (line 90): exponentiate each
logit and normalize by the sum.  The exponential is an external numeric
primitive, passed in as `expF`. -/
def softmax (expF : ℚ → ℚ) (logits : List ℚ) : List ℚ :=
  let es := logits.map expF
  es.map (fun e => e / es.sum)

/-- `np.random.choice(n, p=proba)` (line 59) as an inverse-CDF draw: given a
uniform draw `u`, return the first index whose cumulative probability
exceeds `u`. -/
def categoricalSample (p : List ℚ) (u : ℚ) : Nat :=
  match p with
  | [] => 0
  | x :: rest => if u < x then 0 else categoricalSample rest (u - x) + 1

/-- Modelled from the spec: `env.action_space.sample()` (line 52) returns a
uniformly random valid action of the discrete `n`-action space; with a
uniform draw `u ∈ [0, 1)` this is `⌊u * n⌋`. -/
def uniformSample (n : Nat) (u : ℚ) : Nat :=
  (⌊u * n⌋).toNat

/-- Index of the largest entry (first occurrence), used only to state that
action selection is sampling, NOT an argmax. -/
def argmaxIdx : List ℚ → Nat
  | [] => 0
  | x :: rest =>
    let j := argmaxIdx rest
    if rest.getD j x > x then j + 1 else 0

/-- Result of one `act` call: the chosen action and whether the actor network
was evaluated to produce it. -/
structure ActResult where
  action : Nat
  inferred : Bool
deriving DecidableEq

/-- `ActorCriticPolicy.act` (lines 50–59): in training mode, with probability
`eps` (uniform draw `u < eps`) return the environment's random action
`sampled` without touching the actor network; otherwise evaluate the actor,
softmax its logits and sample from the resulting categorical distribution
with the draw `u2`. -/
def act (training : Bool) (u eps : ℚ) (sampled : Nat) (expF : ℚ → ℚ)
    (logits : List ℚ) (u2 : ℚ) : ActResult :=
  if training = true ∧ u < eps then
    ⟨sampled, false⟩
  else
    ⟨categoricalSample (softmax expF logits) u2, true⟩

/-- The default value of `act`'s `epsilon` parameter
(`def act(self, state, epsilon=0.1)`, line 50). -/
def actDefaultEps : ℚ :=
  1/10

/-- The randomness consumed by one `act` call: the exploration draw `u`
(line 51), the uniform action draw `ua` for `action_space.sample()`
(line 52) and the categorical draw `u2` (line 59). -/
structure ActRand where
  u : ℚ
  ua : ℚ
  u2 : ℚ

/-- The `act` call at call index `k` inside `train`: actions are selected
from the actor logits of the current observation with the per-call
randomness `rand k`. -/
def actCall {S : Type} (training : Bool) (expF : ℚ → ℚ) (n : Nat)
    (logits : S → List ℚ) (rand : Nat → ActRand) (k : Nat) (ob : S)
    (eps : ℚ) : ActResult :=
  act training (rand k).u eps (uniformSample n (rand k).ua) expF (logits ob)
    (rand k).u2

/-- One entry of the episode's step trace: the epsilon in force at the `act`
call, the action actually passed to `env.step`, and the step's result. -/
structure StepTrace (S : Type) where
  epsUsed : ℚ
  action : Nat
  obNext : S
  r : ℚ

/-- The `while not done` loop of `train` (lines 169–171) seen from the action
side: the loop variable `a` is carried in, overwritten by
`a = self.act(ob, eps)` at the top of every iteration, and only then passed
to `env.step(a)`.  `env` is the deterministic model of the external
environment and `fuel` bounds the iteration count. -/
def stepLoopActs {S : Type} (env : S → Nat → S × ℚ × Bool) (training : Bool)
    (expF : ℚ → ℚ) (n : Nat) (logits : S → List ℚ) (rand : Nat → ActRand)
    (eps : ℚ) : Nat → Nat → Nat → S → List (StepTrace S)
  | 0, _, _, _ => []
  | fuel + 1, k, _, ob =>
    let a := (actCall training expF n logits rand k ob eps).action
    let res := env ob a
    ⟨eps, a, res.1, res.2.1⟩ ::
      (if res.2.2 then []
       else stepLoopActs env training expF n logits rand eps fuel (k + 1) a
         res.1)

/-- One episode of `train` seen from the action side (lines 160–171): after
`env.reset()`, the loop variable `a` is initialized by `a = self.act(ob)` —
an `act` call with the DEFAULT epsilon — and the step loop then runs with the
annealed `eps`.  Returns the epsilon used by that initial call, its resulting
action, and the step trace. -/
def runEpisodeActs {S : Type} (env : S → Nat → S × ℚ × Bool)
    (training : Bool) (expF : ℚ → ℚ) (n : Nat) (logits : S → List ℚ)
    (rand : Nat → ActRand) (eps : ℚ) (fuel : Nat) (ob0 : S) :
    (ℚ × Nat) × List (StepTrace S) :=
  let a0 := (actCall training expF n logits rand 0 ob0 actDefaultEps).action
  ((actDefaultEps, a0),
   stepLoopActs env training expF n logits rand eps fuel 1 a0 ob0)

/-- Modelled from the spec: the network builder `mlp(input, layer_sizes)`
(from `playground/utils/tf_ops`, outside the reviewed sources) returns an
output vector of the final layer's width. -/
def mlpOutWidth (widths : List Nat) : Nat :=
  widths.getLastD 0

/-- The actor head's output width: `mlp(states, layer_sizes + [act_size])`
(line 89) — one logit per action. -/
def actorOutWidth (layerSizes : List Nat) (actSize : Nat) : Nat :=
  mlpOutWidth (layerSizes ++ [actSize])

/-- The critic head's output width: `mlp(states, layer_sizes + [1])`
(line 94) — a single value, whatever the action-space size. -/
def criticOutWidth (layerSizes : List Nat) : Nat :=
  mlpOutWidth (layerSizes ++ [1])

/-- The default hidden-layer configuration `layer_sizes = [64]`
(line 45). -/
def defaultLayerSizes : List Nat :=
  [64]

/-- `tf.one_hot(a, n, 1.0, 0.0)` (line 97): length-`n` vector with `1` at
index `a` and `0` elsewhere. -/
def oneHot (a n : Nat) : List ℚ :=
  (List.range n).map (fun i => if i = a then 1 else 0)

/-- TensorFlow elementwise multiplication with broadcasting along the last
axis, as used by `self.critic * action_ohe` (line 98): equal lengths multiply
pointwise; a length-one operand is broadcast across the other; anything else
is a shape error. -/
def broadcastMul (xs ys : List ℚ) : Option (List ℚ) :=
  if xs.length = ys.length then
    some (List.zipWith (fun x y => x * y) xs ys)
  else if xs.length = 1 then
    some (ys.map (fun y => xs.headD 0 * y))
  else if ys.length = 1 then
    some (xs.map (fun x => x * ys.headD 0))
  else
    none

/-- `pred_q = tf.reduce_sum(self.critic * action_ohe, reduction_indices=-1)`
(line 98) for one batch row: broadcast-multiply the critic's output row by
the one-hot action mask and sum. -/
def predQ (criticRow : List ℚ) (a n : Nat) : Option ℚ :=
  (broadcastMul criticRow (oneHot a n)).map (fun l => l.sum)

/-- `td_errors = tf.abs(td_targets - pred_q)` (line 99) for one batch row. -/
def tdErrorOf (td : ℚ) (criticRow : List ℚ) (a n : Nat) : Option ℚ :=
  (predQ criticRow a n).map (fun q => |td - q|)

/-- A small expression language over named, scoped parameters, used to state
what TensorFlow's autodiff does to the loss graphs of `build`
(lines 101–127).  `stopGrad` is `tf.stop_gradient`. -/
inductive Expr where
  | cst : ℚ → Expr
  | var : String → Nat → Expr
  | add : Expr → Expr → Expr
  | mul : Expr → Expr → Expr
  | stopGrad : Expr → Expr

/-- Forward evaluation of an expression under a parameter assignment. -/
def evalE (θ : String → Nat → ℚ) : Expr → ℚ
  | Expr.cst c => c
  | Expr.var sc i => θ sc i
  | Expr.add e₁ e₂ => evalE θ e₁ + evalE θ e₂
  | Expr.mul e₁ e₂ => evalE θ e₁ * evalE θ e₂
  | Expr.stopGrad e => evalE θ e

/-- Symbolic derivative with respect to the parameter `(sc, i)`, following
reverse-mode autodiff's rules: `stop_gradient` has derivative zero. -/
def gradE (sc : String) (i : Nat) : Expr → Expr
  | Expr.cst _ => Expr.cst 0
  | Expr.var sc' i' =>
    if sc = sc' ∧ i = i' then Expr.cst 1 else Expr.cst 0
  | Expr.add e₁ e₂ => Expr.add (gradE sc i e₁) (gradE sc i e₂)
  | Expr.mul e₁ e₂ =>
    Expr.add (Expr.mul (gradE sc i e₁) e₂) (Expr.mul e₁ (gradE sc i e₂))
  | Expr.stopGrad _ => Expr.cst 0

/-- Whether an expression mentions any parameter of scope `sc`. -/
def usesScope (sc : String) : Expr → Bool
  | Expr.cst _ => false
  | Expr.var sc' _ => sc' == sc
  | Expr.add e₁ e₂ => usesScope sc e₁ || usesScope sc e₂
  | Expr.mul e₁ e₂ => usesScope sc e₁ || usesScope sc e₂
  | Expr.stopGrad e => usesScope sc e

/-- Whether every parameter of scope `sc` occurring in the expression sits
below a `stopGrad` node — the condition under which autodiff produces a zero
derivative with respect to that scope. -/
def scopeShielded (sc : String) : Expr → Bool
  | Expr.cst _ => true
  | Expr.var sc' _ => !(sc' == sc)
  | Expr.add e₁ e₂ => scopeShielded sc e₁ && scopeShielded sc e₂
  | Expr.mul e₁ e₂ => scopeShielded sc e₁ && scopeShielded sc e₂
  | Expr.stopGrad _ => true

/-- Sum of a list of expressions. -/
def sumE (l : List Expr) : Expr :=
  l.foldr Expr.add (Expr.cst 0)

/-- `tf.reduce_mean` over a batch of expressions. -/
def meanE (l : List Expr) : Expr :=
  Expr.mul (Expr.cst (1 / l.length)) (sumE l)

/-- The actor loss graph (lines 116–119):
`reduce_mean(stop_gradient(td_errors) * cross_entropy(actor_logits, actions))`,
with one td-error expression and one cross-entropy expression per batch
element. -/
def lossActorE (tdErrs xents : List Expr) : Expr :=
  meanE (List.zipWith (fun t x => Expr.mul (Expr.stopGrad t) x) tdErrs xents)

/-- `_scope_vars(scope)` (lines 61–65): collect the parameters whose scope
matches, out of the global collection `all`. -/
def scopeVars (sc : String) (all : List (String × Nat)) :
    List (String × Nat) :=
  all.filter (fun v => v.1 == sc)

/-- `optimizer.apply_gradients(grads)` (lines 111 and 127) seen at the
parameter level: every variable paired in `grads` is overwritten with its
post-step value `newVal`; every other parameter is untouched. -/
def applyGradients (vars : List (String × Nat))
    (newVal : String → Nat → ℚ) (θ : String → Nat → ℚ) :
    String → Nat → ℚ :=
  fun sc i => if (sc, i) ∈ vars then newVal sc i else θ sc i

/-- Step inputs for the C1 witness: two environment steps. -/
def c1steps : List (StepIn Nat) :=
  [⟨0, 1, 1⟩, ⟨1, 2, 1⟩]

/-- Configuration for the C1 witness: `gamma = 1`, `batch_size = 2`, a
critic whose value depends on its (natural-number) parameter, and a fused
update that bumps the parameter, so the second step's target is computed
with the still-untouched parameters. -/
def c1cfg : TrainCfg Nat Nat :=
  ⟨1, 2, 1, 1, 0, fun s => [(s : ℚ)], fun p s => (p : ℚ) + (s : ℚ),
   fun _ _ p _ => p + 1⟩

/-- Configuration for the C9 mixing example: `gamma = 0`, `batch_size = 2`,
trivial critic and update. -/
def c9cfg : TrainCfg Nat Unit :=
  ⟨0, 2, 1, 1, 0, fun n => [(n : ℚ)], fun _ _ => 0, fun _ _ _ _ => ()⟩

/-- First episode of the C9 mixing example: one step from observation 1. -/
def c9ep1 : Episode Nat :=
  ⟨1, [⟨0, 3, 1⟩]⟩

/-- Second episode of the C9 mixing example: one step from observation 2. -/
def c9ep2 : Episode Nat :=
  ⟨2, [⟨0, 4, 1⟩]⟩

/-! ### Schedule lemmas -/

lemma scheduleAfter_decay_comm (ad cd d : ℚ) (sch : Schedule) (k : Nat) :
    scheduleAfter ad cd d (episodeDecay ad cd d sch) k =
      episodeDecay ad cd d (scheduleAfter ad cd d sch k) := by
  induction k with
  | zero => rfl
  | succ k ih => simp [scheduleAfter, ih]

lemma runEpisodes_sched {S P : Type} (cfg : TrainCfg S P) (sch : Schedule)
    (θ : P) (mem : ReplayMemory S) (l : List (Episode S)) :
    (runEpisodes cfg sch θ mem l).2.1 =
      scheduleAfter cfg.lrADecay cfg.lrCDecay cfg.epsDrop sch l.length := by
  induction l generalizing sch θ mem with
  | nil => rfl
  | cons ep rest ih =>
    simp only [runEpisodes, List.length_cons, scheduleAfter]
    rw [ih, scheduleAfter_decay_comm]

lemma scheduleAfter_lr_a (ad cd d : ℚ) (sch : Schedule) (k : Nat) :
    (scheduleAfter ad cd d sch k).lr_a = sch.lr_a * ad ^ k := by
  induction k with
  | zero => simp [scheduleAfter]
  | succ k ih => simp [scheduleAfter, episodeDecay, ih, pow_succ]; ring

lemma scheduleAfter_lr_c (ad cd d : ℚ) (sch : Schedule) (k : Nat) :
    (scheduleAfter ad cd d sch k).lr_c = sch.lr_c * cd ^ k := by
  induction k with
  | zero => simp [scheduleAfter]
  | succ k ih => simp [scheduleAfter, episodeDecay, ih, pow_succ]; ring

lemma scheduleAfter_eps (ad cd d : ℚ) (sch : Schedule) (k : Nat) :
    (scheduleAfter ad cd d sch k).eps = epsIterate d sch.eps k := by
  induction k with
  | zero => rfl
  | succ k ih => simp [scheduleAfter, episodeDecay, epsIterate, ih]

lemma epsDropOf_pos {A : Nat} (hA : 0 < A) : 0 < epsDropOf A := by
  unfold epsDropOf
  have : (0:ℚ) < A := by exact_mod_cast hA
  positivity

lemma epsIterate_linear {A : Nat} (hA : 0 < A) :
    ∀ k, k ≤ A → epsIterate (epsDropOf A) (1/2) k = 1/2 - k * epsDropOf A := by
  intro k
  induction k with
  | zero => intro _; simp [epsIterate]
  | succ k ih =>
    intro hk
    have hkA : k < A := Nat.lt_of_succ_le hk
    have hAq : (0:ℚ) < A := by exact_mod_cast hA
    have hd : epsDropOf A = (49/100) / A := by
      unfold epsDropOf; norm_num
    have hkd : (k:ℚ) * epsDropOf A < 49/100 := by
      have hkq : (k:ℚ) < A := by exact_mod_cast hkA
      calc (k:ℚ) * epsDropOf A
          < (A:ℚ) * epsDropOf A :=
            mul_lt_mul_of_pos_right hkq (epsDropOf_pos hA)
        _ = 49/100 := by rw [hd]; field_simp; ring
    have hgt : (1:ℚ)/2 - k * epsDropOf A > 1/100 := by linarith
    rw [epsIterate, ih (Nat.le_of_succ_le hk), epsNext, if_pos hgt]
    push_cast
    ring

lemma epsIterate_clamped {A : Nat} (hA : 0 < A) :
    ∀ k, A ≤ k → epsIterate (epsDropOf A) (1/2) k = 1/100 := by
  have hbase : epsIterate (epsDropOf A) (1/2) A = 1/100 := by
    have hAq : (0:ℚ) < A := by exact_mod_cast hA
    rw [epsIterate_linear hA A le_rfl]
    unfold epsDropOf
    field_simp
    ring
  have haux : ∀ j, epsIterate (epsDropOf A) (1/2) (A + j) = 1/100 := by
    intro j
    induction j with
    | zero => simpa using hbase
    | succ j ih =>
      have : A + (j + 1) = (A + j) + 1 := by omega
      rw [this, epsIterate, ih, epsNext, if_neg (by norm_num)]
  intro k hk
  have : k = A + (k - A) := by omega
  rw [this, haux]

/-! ### Drain-loop lemmas -/

lemma drainTrain_leftover_lt {S P : Type} (bs : Nat) (upd : P → Batch S → P)
    (θ : P) (mem : ReplayMemory S) (hbs : 0 < bs) :
    (drainTrain bs upd θ mem).2.2.length < bs := by
  induction θ, mem using drainTrain.induct bs upd with
  | case1 =>
    rename_i θ mem h b ih
    rw [drainTrain, dif_pos h]
    exact ih
  | case2 =>
    rename_i θ mem h
    rw [drainTrain, dif_neg h]
    push_neg at h
    exact h hbs

lemma drainTrain_mem_subset {S P : Type} (bs : Nat) (upd : P → Batch S → P)
    (θ : P) (mem : ReplayMemory S) :
    (drainTrain bs upd θ mem).2.2 ⊆ mem := by
  induction θ, mem using drainTrain.induct bs upd with
  | case1 =>
    rename_i θ mem h b ih
    rw [drainTrain, dif_pos h]
    exact fun x hx => List.drop_subset _ _ (ih hx)
  | case2 =>
    rename_i θ mem h
    rw [drainTrain, dif_neg h]
    exact fun x hx => hx

lemma drainTrain_batches_states {S P : Type} (bs : Nat)
    (upd : P → Batch S → P) (θ : P) (mem : ReplayMemory S) :
    ∀ b ∈ (drainTrain bs upd θ mem).2.1, ∀ x ∈ b.s,
      x ∈ mem.map (fun rcd => rcd.s) := by
  induction θ, mem using drainTrain.induct bs upd with
  | case1 =>
    rename_i θ mem h b ih
    rw [drainTrain, dif_pos h]
    intro bb hbb x hx
    rcases List.mem_cons.mp hbb with hback | htail
    · subst hback
      simp only [ReplayMemory.toBatch, List.mem_map] at hx
      rcases hx with ⟨rcd, hrcd, hrfl⟩
      exact List.mem_map.mpr ⟨rcd, List.take_subset _ _ hrcd, hrfl⟩
    · have := ih bb htail x hx
      rcases List.mem_map.mp this with ⟨rcd, hrcd, hrfl⟩
      exact List.mem_map.mpr ⟨rcd, List.drop_subset _ _ hrcd, hrfl⟩
  | case2 =>
    rename_i θ mem h
    rw [drainTrain, dif_neg h]
    intro bb hbb
    simp at hbb

/-- Claim C7: for every memory contents and every `n`: a `pop n` with
`n ≤ size` succeeds, returning exactly the `n` earliest-inserted records as
one array per field, and shrinking the buffer by exactly `n`; a `pop n` with
`n > size` fails with `InsufficientDataError`; and the drain loop of `train`
only ever pops under its `size >= batch_size` guard, under which the error
branch of `pop` is unreachable — one drain iteration is exactly a successful
`pop` followed by the fused update. -/
theorem claim_C7_pop_contract :
    ∀ (S P : Type) (mem : ReplayMemory S) (n : Nat),
      (n ≤ ReplayMemory.size mem →
          ReplayMemory.pop n mem =
            Except.ok (ReplayMemory.toBatch (mem.take n), mem.drop n)
        ∧ (ReplayMemory.toBatch (mem.take n)).s.length = n
        ∧ (ReplayMemory.toBatch (mem.take n)).a.length = n
        ∧ (ReplayMemory.toBatch (mem.take n)).r.length = n
        ∧ (ReplayMemory.toBatch (mem.take n)).td_target.length = n
        ∧ ReplayMemory.size (mem.drop n) = ReplayMemory.size mem - n)
      ∧ (ReplayMemory.size mem < n →
          ReplayMemory.pop n mem = Except.error ReplayError.insufficientData)
      ∧ ∀ (upd : P → Batch S → P) (θ : P), 0 < n →
          n ≤ ReplayMemory.size mem →
          (∃ b mem', ReplayMemory.pop n mem = Except.ok (b, mem'))
          ∧ drainTrain n upd θ mem =
              ((drainTrain n upd
                  (upd θ (ReplayMemory.toBatch (mem.take n)))
                  (mem.drop n)).1,
               ReplayMemory.toBatch (mem.take n) ::
                 (drainTrain n upd
                   (upd θ (ReplayMemory.toBatch (mem.take n)))
                   (mem.drop n)).2.1,
               (drainTrain n upd
                 (upd θ (ReplayMemory.toBatch (mem.take n)))
                 (mem.drop n)).2.2) := by
  intro S P mem n
  refine ⟨fun hle => ?_, fun hgt => ?_, fun upd θ hpos hle => ?_⟩
  all_goals
    simp only [ReplayMemory.size] at *
  · refine ⟨?_, ?_, ?_, ?_, ?_, ?_⟩
    · simp [ReplayMemory.pop, hle]
    · simp [ReplayMemory.toBatch, List.length_take,
        Nat.min_eq_left hle]
    · simp [ReplayMemory.toBatch, List.length_take,
        Nat.min_eq_left hle]
    · simp [ReplayMemory.toBatch, List.length_take,
        Nat.min_eq_left hle]
    · simp [ReplayMemory.toBatch, List.length_take,
        Nat.min_eq_left hle]
    · simp [List.length_drop]
  · have : ¬ n ≤ mem.length := by omega
    simp [ReplayMemory.pop, this]
  · constructor
    · exact ⟨ReplayMemory.toBatch (mem.take n), mem.drop n,
        by simp [ReplayMemory.pop, hle]⟩
    · conv_lhs => rw [drainTrain]
      rw [dif_pos ⟨hpos, hle⟩]

/-- Witness for claim C7: a three-record buffer, `pop 2`. -/
theorem claim_C7_witness :
    (2 ≤ ReplayMemory.size
        ([⟨1, 0, 1, 1⟩, ⟨2, 1, 2, 2⟩, ⟨3, 0, 3, 3⟩] : ReplayMemory Nat))
    ∧ ReplayMemory.pop 2
        ([⟨1, 0, 1, 1⟩, ⟨2, 1, 2, 2⟩, ⟨3, 0, 3, 3⟩] : ReplayMemory Nat) =
        Except.ok
          (ReplayMemory.toBatch
            (([⟨1, 0, 1, 1⟩, ⟨2, 1, 2, 2⟩, ⟨3, 0, 3, 3⟩] :
                ReplayMemory Nat).take 2),
           ([⟨1, 0, 1, 1⟩, ⟨2, 1, 2, 2⟩, ⟨3, 0, 3, 3⟩] :
              ReplayMemory Nat).drop 2)
    ∧ ReplayMemory.size
        (([⟨1, 0, 1, 1⟩, ⟨2, 1, 2, 2⟩, ⟨3, 0, 3, 3⟩] :
            ReplayMemory Nat).drop 2) =
        ReplayMemory.size
          ([⟨1, 0, 1, 1⟩, ⟨2, 1, 2, 2⟩, ⟨3, 0, 3, 3⟩] : ReplayMemory Nat)
          - 2 :=
  ⟨by decide,
   ((claim_C7_pop_contract Nat Unit
      [⟨1, 0, 1, 1⟩, ⟨2, 1, 2, 2⟩, ⟨3, 0, 3, 3⟩] 2).1 (by decide)).1,
   ((claim_C7_pop_contract Nat Unit
      [⟨1, 0, 1, 1⟩, ⟨2, 1, 2, 2⟩, ⟨3, 0, 3, 3⟩] 2).1
      (by decide)).2.2.2.2.2⟩

/-! ### Step-loop lemmas -/

lemma runSteps_archive_states {S P : Type} (cfg : TrainCfg S P)
    (lrC lrA : ℚ) (ob : S) (θ : P) (mem : ReplayMemory S)
    (steps : List (StepIn S)) :
    (runSteps cfg lrC lrA ob θ mem steps).archive.map (fun rcd => rcd.s)
      = (ob :: steps.map (fun st => st.obNext)).take steps.length := by
  induction steps generalizing ob θ mem with
  | nil => simp [runSteps]
  | cons inp rest ih =>
    simp only [runSteps, List.map_cons, List.length_cons,
      List.take_succ_cons, List.map]
    rw [ih]

lemma runSteps_locals_flat {S P : Type} (cfg : TrainCfg S P)
    (lrC lrA : ℚ) (ob : S) (θ : P) (mem : ReplayMemory S)
    (steps : List (StepIn S)) :
    (runSteps cfg lrC lrA ob θ mem steps).locals
      = (runSteps cfg lrC lrA ob θ mem steps).archive.map
          (fun rcd => cfg.flat rcd.s) := by
  induction steps generalizing ob θ mem with
  | nil => simp [runSteps]
  | cons inp rest ih =>
    simp only [runSteps, List.map_cons]
    rw [ih]

lemma runSteps_batch_states {S P : Type} (cfg : TrainCfg S P)
    (lrC lrA : ℚ) (ob : S) (θ : P) (mem : ReplayMemory S)
    (steps : List (StepIn S)) :
    ∀ b ∈ (runSteps cfg lrC lrA ob θ mem steps).batches, ∀ x ∈ b.s,
      x ∈ mem.map (fun rcd => rcd.s)
      ∨ x ∈ (runSteps cfg lrC lrA ob θ mem steps).archive.map
          (fun rcd => rcd.s) := by
  induction steps generalizing ob θ mem with
  | nil => simp [runSteps]
  | cons inp rest ih =>
    intro b hb x hx
    simp only [runSteps, List.mem_append] at hb
    rcases hb with hdr | hout
    · have hmem := drainTrain_batches_states cfg.batchSize
        (cfg.trainUpd lrC lrA) θ
        (ReplayMemory.add mem ⟨ob, inp.a, inp.r,
          inp.r + cfg.gamma * cfg.criticEval θ inp.obNext⟩) b hdr x hx
      simp only [ReplayMemory.add, List.map_append, List.mem_append,
        List.map_cons, List.map_nil, List.mem_singleton] at hmem
      rcases hmem with hl | hr
      · exact Or.inl hl
      · refine Or.inr ?_
        simp only [runSteps, List.map_cons, List.mem_cons]
        exact Or.inl hr
    · have := ih inp.obNext _ _ b hout x hx
      rcases this with hl | hr
      · rcases List.mem_map.mp hl with ⟨rcd, hrcd, hrfl⟩
        have hsub := drainTrain_mem_subset cfg.batchSize
          (cfg.trainUpd lrC lrA) θ
          (ReplayMemory.add mem ⟨ob, inp.a, inp.r,
            inp.r + cfg.gamma * cfg.criticEval θ inp.obNext⟩) hrcd
        simp only [ReplayMemory.add, List.mem_append,
          List.mem_singleton] at hsub
        rcases hsub with hm | hnew
        · exact Or.inl (List.mem_map.mpr ⟨rcd, hm, hrfl⟩)
        · refine Or.inr ?_
          simp only [runSteps, List.map_cons, List.mem_cons]
          subst hnew
          exact Or.inl hrfl.symm
      · refine Or.inr ?_
        simp only [runSteps, List.map_cons, List.mem_cons]
        exact Or.inr hr

/-- Claim C8: every `Record` pushed into the replay memory stores the RAW
observation `ob`: the sequence of stored states is exactly the sequence of
raw observations seen by the loop; the flattened `obs_to_inputs(ob)` values
go only into the local per-episode list; and every state of every batch fed
to the training step comes from the stored records (pre-existing memory or
this episode's archive), hence is a raw observation, never an entry of the
local flattened list. -/
theorem claim_C8_raw_obs_stored :
    ∀ (S P : Type) (cfg : TrainCfg S P) (lrC lrA : ℚ) (ob : S) (θ : P)
      (mem : ReplayMemory S) (steps : List (StepIn S)),
      (runSteps cfg lrC lrA ob θ mem steps).archive.map (fun rcd => rcd.s)
        = (ob :: steps.map (fun st => st.obNext)).take steps.length
      ∧ (runSteps cfg lrC lrA ob θ mem steps).locals
        = (runSteps cfg lrC lrA ob θ mem steps).archive.map
            (fun rcd => cfg.flat rcd.s)
      ∧ ∀ b ∈ (runSteps cfg lrC lrA ob θ mem steps).batches, ∀ x ∈ b.s,
          x ∈ mem.map (fun rcd => rcd.s)
          ∨ x ∈ (runSteps cfg lrC lrA ob θ mem steps).archive.map
              (fun rcd => rcd.s) :=
  fun S P cfg lrC lrA ob θ mem steps =>
    ⟨runSteps_archive_states cfg lrC lrA ob θ mem steps,
     runSteps_locals_flat cfg lrC lrA ob θ mem steps,
     runSteps_batch_states cfg lrC lrA ob θ mem steps⟩

set_option maxRecDepth 2000 in
/-- Witness for claim C8: the two-step run of the C1 configuration; the
batch consumed at step two holds the raw observation `5`, which the theorem
traces back to the stored records. -/
theorem claim_C8_witness :
    ((runSteps c1cfg 1 1 5 0 [] c1steps).batches.getD 0 ⟨[], [], [], []⟩)
        ∈ (runSteps c1cfg 1 1 5 0 [] c1steps).batches
    ∧ (5 : Nat) ∈ ((runSteps c1cfg 1 1 5 0 [] c1steps).batches.getD 0
        ⟨[], [], [], []⟩).s
    ∧ ((5 : Nat) ∈ ([] : ReplayMemory Nat).map (fun rcd => rcd.s)
       ∨ (5 : Nat) ∈ (runSteps c1cfg 1 1 5 0 [] c1steps).archive.map
          (fun rcd => rcd.s)) := by
  have hrun : runSteps c1cfg 1 1 5 0 [] c1steps =
      ⟨[⟨5, 0, 1, 2⟩, ⟨1, 1, 1, 3⟩], [[5], [1]],
       [⟨[5, 1], [0, 1], [1, 1], [2, 3]⟩], 1, []⟩ := by
    simp [runSteps, drainTrain.eq_def, ReplayMemory.add,
      ReplayMemory.toBatch, c1cfg, c1steps]
    norm_num
  have hb : ((runSteps c1cfg 1 1 5 0 [] c1steps).batches.getD 0
      ⟨[], [], [], []⟩) ∈ (runSteps c1cfg 1 1 5 0 [] c1steps).batches := by
    rw [hrun]; simp
  have hx : (5 : Nat) ∈ ((runSteps c1cfg 1 1 5 0 [] c1steps).batches.getD 0
      ⟨[], [], [], []⟩).s := by
    rw [hrun]; simp
  exact ⟨hb, hx,
    (claim_C8_raw_obs_stored Nat Nat c1cfg 1 1 5 0 [] c1steps).2.2
      ((runSteps c1cfg 1 1 5 0 [] c1steps).batches.getD 0 ⟨[], [], [], []⟩)
      hb 5 hx⟩

lemma runSteps_memF_lt {S P : Type} (cfg : TrainCfg S P) (lrC lrA : ℚ)
    (hbs : 0 < cfg.batchSize) :
    ∀ (ob : S) (θ : P) (mem : ReplayMemory S) (steps : List (StepIn S)),
      steps ≠ [] →
      (runSteps cfg lrC lrA ob θ mem steps).memF.length < cfg.batchSize := by
  intro ob θ mem steps hne
  induction steps generalizing ob θ mem with
  | nil => exact absurd rfl hne
  | cons inp rest ih =>
    cases rest with
    | nil =>
      simp only [runSteps]
      exact drainTrain_leftover_lt _ _ _ _ hbs
    | cons inp2 rest2 =>
      simp only [runSteps]
      exact ih _ _ _ (by simp)

lemma runEpisodes_memStart_head {S P : Type} (cfg : TrainCfg S P)
    (sch : Schedule) (θ : P) (mem : ReplayMemory S) (ep : Episode S)
    (rest : List (Episode S)) (d : EpisodeEnd S P) :
    ((runEpisodes cfg sch θ mem (ep :: rest)).1.getD 0 d).memStart = mem := by
  simp [runEpisodes]

lemma runEpisodes_thread {S P : Type} (cfg : TrainCfg S P) :
    ∀ (l : List (Episode S)) (k : Nat) (d : EpisodeEnd S P) (sch : Schedule)
      (θ : P) (mem : ReplayMemory S),
      k + 1 < l.length →
      ((runEpisodes cfg sch θ mem l).1.getD (k + 1) d).memStart =
        ((runEpisodes cfg sch θ mem l).1.getD k d).memEnd := by
  intro l
  induction l with
  | nil => intro k d sch θ mem hk; simp at hk
  | cons ep rest ih =>
    intro k d sch θ mem hk
    cases k with
    | zero =>
      cases rest with
      | nil => simp at hk
      | cons ep2 rest2 =>
        simp only [runEpisodes, List.getD_cons_succ, List.getD_cons_zero]
    | succ k =>
      simp only [runEpisodes, List.getD_cons_succ]
      exact ih k d _ _ _ (by simpa using hk)

/-- Claim C9: the replay memory is never cleared at an episode boundary.
First conjunct: after any non-empty episode the leftover memory holds fewer
than `batch_size` records (everything else was consumed by the drain loop).
Second conjunct: the memory entering episode `k+1` is exactly the memory left
at the end of episode `k`.  Final conjuncts: in a concrete two-episode run
with `batch_size = 2` and one step per episode, the batch popped during the
second episode holds one observation from each episode. -/
theorem claim_C9_memory_persists :
    (∀ (S P : Type) (cfg : TrainCfg S P) (lrC lrA : ℚ) (ob : S) (θ : P)
        (mem : ReplayMemory S) (steps : List (StepIn S)),
        0 < cfg.batchSize → steps ≠ [] →
        (runSteps cfg lrC lrA ob θ mem steps).memF.length < cfg.batchSize)
    ∧ (∀ (S P : Type) (cfg : TrainCfg S P) (sch : Schedule) (θ : P)
        (mem : ReplayMemory S) (l : List (Episode S)) (k : Nat)
        (d : EpisodeEnd S P),
        k + 1 < l.length →
        ((runEpisodes cfg sch θ mem l).1.getD (k + 1) d).memStart =
          ((runEpisodes cfg sch θ mem l).1.getD k d).memEnd)
    ∧ ((((runEpisodes c9cfg ⟨1, 1, 1/2⟩ () [] [c9ep1, c9ep2]).1.getD 1
          ⟨[], [], [], (), ⟨0, 0, 0⟩⟩).batches.getD 0
          ⟨[], [], [], []⟩).s = [c9ep1.ob0, c9ep2.ob0]
        ∧ c9ep1.ob0 ≠ c9ep2.ob0) := by
  refine ⟨fun S P cfg lrC lrA ob θ mem steps hbs hne =>
      runSteps_memF_lt cfg lrC lrA hbs ob θ mem steps hne,
    fun S P cfg sch θ mem l k d hk =>
      runEpisodes_thread cfg l k d sch θ mem hk, ?_, by decide⟩
  have hrun : runEpisodes c9cfg ⟨1, 1, 1/2⟩ () [] [c9ep1, c9ep2] =
      ([⟨[], [], [⟨1, 0, 1, 1⟩], (), ⟨1, 1, 1/2⟩⟩,
        ⟨[⟨1, 0, 1, 1⟩], [⟨[1, 2], [0, 0], [1, 1], [1, 1]⟩], [], (),
         ⟨1, 1, 1/2⟩⟩],
       ⟨1, 1, 1/2⟩, (), []) := by
    simp [runEpisodes, runSteps, drainTrain.eq_def, ReplayMemory.add,
      ReplayMemory.toBatch, episodeDecay, epsNext, c9cfg, c9ep1, c9ep2]
  rw [hrun]
  decide

/-- Witness for claim C9: the first conjunct applied to the first episode of
the mixing example. -/
theorem claim_C9_witness :
    0 < c9cfg.batchSize ∧ c9ep1.steps ≠ [] ∧
      (runSteps c9cfg 1 1 c9ep1.ob0 () [] c9ep1.steps).memF.length <
        c9cfg.batchSize :=
  ⟨by decide, by decide,
   claim_C9_memory_persists.1 Nat Unit c9cfg 1 1 c9ep1.ob0 () []
     c9ep1.steps (by decide) (by decide)⟩

/-- Claim C1: every transition generated by the step loop stores
`td_target = r + gamma * critic(ob_next)` where the critic is evaluated with
the parameters current at the moment the transition is generated
(`stepParams` lists the parameters on entry to each step, BEFORE the drain
loop of that step may update them by training on a batch). -/
theorem claim_C1_td_target_online :
    ∀ (S P : Type) (cfg : TrainCfg S P) (lrC lrA : ℚ) (ob : S) (θ : P)
      (mem : ReplayMemory S) (steps : List (StepIn S)) (i : Nat)
      (dR : Record S) (dS : StepIn S) (dP : P),
      i < steps.length →
      ((runSteps cfg lrC lrA ob θ mem steps).archive.getD i dR).td_target
        = (steps.getD i dS).r
          + cfg.gamma * cfg.criticEval
              ((stepParams cfg lrC lrA ob θ mem steps).getD i dP)
              ((steps.getD i dS).obNext) := by
  intro S P cfg lrC lrA ob θ mem steps i dR dS dP hi
  induction steps generalizing ob θ mem i with
  | nil => simp at hi
  | cons inp rest ih =>
    cases i with
    | zero =>
      simp [runSteps, stepParams]
    | succ i =>
      simp only [runSteps, stepParams, List.getD_cons_succ]
      exact ih _ _ _ _ (by simpa using hi)

/-- Witness for claim C1 at the second step of a two-step episode. -/
theorem claim_C1_witness :
    1 < c1steps.length ∧
      ((runSteps c1cfg 1 1 5 0 [] c1steps).archive.getD 1
          ⟨0, 0, 0, 0⟩).td_target
        = (c1steps.getD 1 ⟨0, 0, 0⟩).r
          + c1cfg.gamma * c1cfg.criticEval
              ((stepParams c1cfg 1 1 5 0 [] c1steps).getD 1 0)
              ((c1steps.getD 1 ⟨0, 0, 0⟩).obNext) :=
  ⟨by decide,
   claim_C1_td_target_online Nat Nat c1cfg 1 1 5 0 [] c1steps 1
     ⟨0, 0, 0, 0⟩ ⟨0, 0, 0⟩ 0 (by decide)⟩

/-- Claim C3: across episodes of `train`, epsilon decreases by the fixed
linear step `(initial_epsilon - floor_epsilon) / annealing_episodes` per
episode until it reaches the floor `0.01`, and is clamped at `0.01` for all
later episodes; concretely, with initial epsilon `0.5` and
`annealing_episodes = 10`, the step is `0.049`, epsilon after `10` episodes
is `0.01`, and after `20` episodes it is still `0.01`.  The final conjunct
ties the closed form to the schedule threaded by the episode loop. -/
theorem claim_C3_epsilon_anneal :
    (∀ A : Nat, 0 < A →
        (∀ k, k ≤ A →
          epsIterate (epsDropOf A) (1/2) k = 1/2 - k * epsDropOf A)
      ∧ (∀ k, A ≤ k → epsIterate (epsDropOf A) (1/2) k = 1/100))
    ∧ epsDropOf 10 = 49/1000
    ∧ epsIterate (epsDropOf 10) (1/2) 10 = 1/100
    ∧ epsIterate (epsDropOf 10) (1/2) 20 = 1/100
    ∧ ∀ (S P : Type) (cfg : TrainCfg S P) (sch : Schedule) (θ : P)
        (mem : ReplayMemory S) (l : List (Episode S)),
        ((runEpisodes cfg sch θ mem l).2.1).eps =
          epsIterate cfg.epsDrop sch.eps l.length := by
  refine ⟨fun A hA => ⟨epsIterate_linear hA, epsIterate_clamped hA⟩, ?_, ?_, ?_, ?_⟩
  · unfold epsDropOf; norm_num
  · exact epsIterate_clamped (A := 10) (by norm_num) 10 le_rfl
  · exact epsIterate_clamped (A := 10) (by norm_num) 20 (by norm_num)
  · intro S P cfg sch θ mem l
    rw [runEpisodes_sched, scheduleAfter_eps]

/-- Witness for claim C3 at `annealing_episodes = 10`, `k = 3`. -/
theorem claim_C3_witness :
    0 < 10 ∧ 3 ≤ 10 ∧
      epsIterate (epsDropOf 10) (1/2) 3 = 1/2 - 3 * epsDropOf 10 :=
  ⟨by decide, by decide,
    (claim_C3_epsilon_anneal.1 10 (by decide)).1 3 (by decide)⟩

/-- Claim C6: both learning rates decay multiplicatively once per episode,
unconditionally — the closed form depends only on the NUMBER of completed
episodes, not on their contents (so not on whether any batch update
occurred): after `k = l.length` episodes,
`lr_actor = lr_a_initial * lr_a_decay ^ k` and
`lr_critic = lr_c_initial * lr_c_decay ^ k`. -/
theorem claim_C6_lr_decay :
    ∀ (S P : Type) (cfg : TrainCfg S P) (sch : Schedule) (θ : P)
      (mem : ReplayMemory S) (l : List (Episode S)),
      ((runEpisodes cfg sch θ mem l).2.1).lr_a =
          sch.lr_a * cfg.lrADecay ^ l.length
      ∧ ((runEpisodes cfg sch θ mem l).2.1).lr_c =
          sch.lr_c * cfg.lrCDecay ^ l.length := by
  intro S P cfg sch θ mem l
  rw [runEpisodes_sched]
  exact ⟨scheduleAfter_lr_a _ _ _ _ _, scheduleAfter_lr_c _ _ _ _ _⟩

/-! ### Action-selection lemmas -/

lemma uniformSample_lt (n : Nat) (ua : ℚ) (hn : 0 < n) (h0 : 0 ≤ ua)
    (h1 : ua < 1) : uniformSample n ua < n := by
  have hnq : (0:ℚ) < n := by exact_mod_cast hn
  have hlt : ua * n < n := by
    calc ua * n < 1 * n := mul_lt_mul_of_pos_right h1 hnq
      _ = n := one_mul _
  have h2 : ⌊ua * (n:ℚ)⌋ < (n:ℤ) := by
    rw [Int.floor_lt]
    exact_mod_cast hlt
  have h3 : (0:ℤ) ≤ ⌊ua * (n:ℚ)⌋ := Int.floor_nonneg.mpr (by positivity)
  unfold uniformSample
  omega

/-- Claim C4: in `act`, when in training mode and the exploration draw fires
(`u < eps`), the environment's uniformly random action is returned with no
actor inference (and it is a valid action); otherwise the action is sampled
from the softmax categorical distribution over the actor's logits; in
non-training mode the same softmax sampling happens whatever `eps` is
(epsilon is ignored entirely); and the sampling is NOT an argmax: on a
concrete distribution the sampled action differs from the argmax. -/
theorem claim_C4_act_selection :
    (∀ (training : Bool) (u eps : ℚ) (n : Nat) (ua : ℚ) (expF : ℚ → ℚ)
        (logits : List ℚ) (u2 : ℚ),
        (training = true → u < eps →
          act training u eps (uniformSample n ua) expF logits u2 =
            ⟨uniformSample n ua, false⟩)
        ∧ (training = true → ¬ u < eps →
          act training u eps (uniformSample n ua) expF logits u2 =
            ⟨categoricalSample (softmax expF logits) u2, true⟩)
        ∧ (training = false →
          act training u eps (uniformSample n ua) expF logits u2 =
            ⟨categoricalSample (softmax expF logits) u2, true⟩))
    ∧ (∀ (n : Nat) (ua : ℚ), 0 < n → 0 ≤ ua → ua < 1 →
        uniformSample n ua < n)
    ∧ categoricalSample (softmax (fun x => x + 1) [0, 1]) (1/4) ≠
        argmaxIdx (softmax (fun x => x + 1) [0, 1]) := by
  refine ⟨fun training u eps n ua expF logits u2 => ⟨?_, ?_, ?_⟩,
    uniformSample_lt, ?_⟩
  · intro htr hu
    simp [act, htr, hu]
  · intro htr hu
    simp [act, htr, hu]
  · intro htr
    simp [act, htr]
  · have hs : softmax (fun x => x + 1) [0, 1] = [1/3, 2/3] := by
      norm_num [softmax]
    rw [hs]
    norm_num [categoricalSample, argmaxIdx]

/-- Witness for claim C4: training mode, exploration draw fires, and the
uniform action is valid. -/
theorem claim_C4_witness :
    (true = true ∧ (1:ℚ)/5 < 1/2
      ∧ act true (1/5) (1/2) (uniformSample 3 (1/3)) (fun x => x + 1)
          [0, 1] (1/4) = ⟨uniformSample 3 (1/3), false⟩)
    ∧ (0 < 3 ∧ (0:ℚ) ≤ 1/3 ∧ (1:ℚ)/3 < 1 ∧ uniformSample 3 (1/3) < 3) := by
  refine ⟨⟨rfl, by norm_num, ?_⟩, ⟨by decide, by norm_num, by norm_num, ?_⟩⟩
  · exact (claim_C4_act_selection.1 true (1/5) (1/2) 3 (1/3)
      (fun x => x + 1) [0, 1] (1/4)).1 rfl (by norm_num)
  · exact claim_C4_act_selection.2.1 3 (1/3) (by decide) (by norm_num)
      (by norm_num)

lemma stepLoopActs_eps {S : Type} (env : S → Nat → S × ℚ × Bool)
    (training : Bool) (expF : ℚ → ℚ) (n : Nat) (logits : S → List ℚ)
    (rand : Nat → ActRand) (eps : ℚ) :
    ∀ (fuel k a : Nat) (ob : S) (t : StepTrace S),
      t ∈ stepLoopActs env training expF n logits rand eps fuel k a ob →
      t.epsUsed = eps := by
  intro fuel
  induction fuel with
  | zero => intro k a ob t ht; simp [stepLoopActs] at ht
  | succ fuel ih =>
    intro k a ob t ht
    simp only [stepLoopActs, List.mem_cons] at ht
    rcases ht with rfl | htail
    · rfl
    · by_cases hdone : (env ob ((actCall training expF n logits rand k ob
          eps).action)).2.2 = true
      · rw [if_pos hdone] at htail
        simp at htail
      · rw [if_neg hdone] at htail
        exact ih _ _ _ t htail

/-- Claim C10: at the start of every episode `train` calls `act(ob)` once
with `act`'s default epsilon `0.1` and discards the result: the loop
variable is overwritten before any `env.step`, so the step trace is
independent of the initial action; and every `act` call whose action is
passed to `env.step` runs with the current annealed `eps`. -/
theorem claim_C10_initial_act_discarded :
    ∀ (S : Type) (env : S → Nat → S × ℚ × Bool) (training : Bool)
      (expF : ℚ → ℚ) (n : Nat) (logits : S → List ℚ) (rand : Nat → ActRand)
      (eps : ℚ) (fuel : Nat) (ob0 : S),
      ((runEpisodeActs env training expF n logits rand eps fuel ob0).1.1 =
          actDefaultEps
        ∧ actDefaultEps = 1/10)
      ∧ (∀ (a a' k : Nat) (ob : S),
          stepLoopActs env training expF n logits rand eps fuel k a ob =
            stepLoopActs env training expF n logits rand eps fuel k a' ob)
      ∧ (∀ a : Nat,
          (runEpisodeActs env training expF n logits rand eps fuel ob0).2 =
            stepLoopActs env training expF n logits rand eps fuel 1 a ob0)
      ∧ (∀ t ∈ (runEpisodeActs env training expF n logits rand eps fuel
            ob0).2, t.epsUsed = eps) := by
  intro S env training expF n logits rand eps fuel ob0
  have hindep : ∀ (fl a a' k : Nat) (ob : S),
      stepLoopActs env training expF n logits rand eps fl k a ob =
        stepLoopActs env training expF n logits rand eps fl k a' ob := by
    intro fl
    cases fl with
    | zero => intro a a' k ob; rfl
    | succ fl => intro a a' k ob; rfl
  refine ⟨⟨rfl, rfl⟩, fun a a' k ob => hindep fuel a a' k ob, ?_, ?_⟩
  · intro a
    exact hindep fuel _ a 1 ob0
  · intro t ht
    exact stepLoopActs_eps env training expF n logits rand eps fuel 1 _
      ob0 t ht

/-- Witness for claim C10: a concrete three-step episode; the first recorded
step runs under the annealed epsilon `1/4`, not the default `1/10`. -/
theorem claim_C10_witness :
    ((runEpisodeActs (fun s a => (s + a + 1, 1, decide (2 ≤ s))) true
        (fun x => x + 1) 2 (fun _ => [0, 1]) (fun _ => ⟨1/2, 1/3, 1/4⟩)
        (1/4) 5 0).2.getD 0 ⟨0, 0, 0, 0⟩)
      ∈ (runEpisodeActs (fun s a => (s + a + 1, 1, decide (2 ≤ s))) true
        (fun x => x + 1) 2 (fun _ => [0, 1]) (fun _ => ⟨1/2, 1/3, 1/4⟩)
        (1/4) 5 0).2
    ∧ ((runEpisodeActs (fun s a => (s + a + 1, 1, decide (2 ≤ s))) true
        (fun x => x + 1) 2 (fun _ => [0, 1]) (fun _ => ⟨1/2, 1/3, 1/4⟩)
        (1/4) 5 0).2.getD 0 ⟨0, 0, 0, 0⟩).epsUsed = 1/4 := by
  have hne : (runEpisodeActs (fun s a => (s + a + 1, 1, decide (2 ≤ s)))
      true (fun x => x + 1) 2 (fun _ => [0, 1])
      (fun _ => ⟨1/2, 1/3, 1/4⟩) (1/4) 5 0).2 ≠ [] := by
    simp only [runEpisodeActs, stepLoopActs]
    simp
  have hmem : ((runEpisodeActs (fun s a => (s + a + 1, 1, decide (2 ≤ s)))
      true (fun x => x + 1) 2 (fun _ => [0, 1])
      (fun _ => ⟨1/2, 1/3, 1/4⟩) (1/4) 5 0).2.getD 0 ⟨0, 0, 0, 0⟩)
      ∈ (runEpisodeActs (fun s a => (s + a + 1, 1, decide (2 ≤ s))) true
        (fun x => x + 1) 2 (fun _ => [0, 1]) (fun _ => ⟨1/2, 1/3, 1/4⟩)
        (1/4) 5 0).2 := by
    cases hl : (runEpisodeActs (fun s a => (s + a + 1, 1, decide (2 ≤ s)))
        true (fun x => x + 1) 2 (fun _ => [0, 1])
        (fun _ => ⟨1/2, 1/3, 1/4⟩) (1/4) 5 0).2 with
    | nil => exact absurd hl hne
    | cons t ts => simp
  exact ⟨hmem,
    (claim_C10_initial_act_discarded Nat
      (fun s a => (s + a + 1, 1, decide (2 ≤ s))) true (fun x => x + 1) 2
      (fun _ => [0, 1]) (fun _ => ⟨1/2, 1/3, 1/4⟩) (1/4) 5 0).2.2.2 _ hmem⟩

/-! ### Critic-head lemmas -/

lemma broadcastMul_single (v : ℚ) (l : List ℚ) :
    broadcastMul [v] l = some (l.map (fun y => v * y)) := by
  match l with
  | [] => simp [broadcastMul]
  | [x] => simp [broadcastMul]
  | x :: y :: rest => simp [broadcastMul]

lemma oneHot_sum_ge (a : Nat) : ∀ n, n ≤ a → (oneHot a n).sum = 0 := by
  intro n
  induction n with
  | zero => intro _; simp [oneHot]
  | succ n ih =>
    intro h
    have hsplit : oneHot a (n + 1) =
        oneHot a n ++ [if n = a then (1:ℚ) else 0] := by
      simp [oneHot, List.range_succ]
    rw [hsplit, List.sum_append, ih (by omega), if_neg (by omega)]
    simp

lemma oneHot_sum_lt (a : Nat) : ∀ n, a < n → (oneHot a n).sum = 1 := by
  intro n
  induction n with
  | zero => intro h; simp at h
  | succ n ih =>
    intro h
    have hsplit : oneHot a (n + 1) =
        oneHot a n ++ [if n = a then (1:ℚ) else 0] := by
      simp [oneHot, List.range_succ]
    rw [hsplit, List.sum_append]
    by_cases hna : a < n
    · rw [ih hna, if_neg (by omega)]
      simp
    · have hna' : n = a := by omega
      rw [if_pos hna', oneHot_sum_ge a n (by omega)]
      simp

lemma map_mul_sum (v : ℚ) (l : List ℚ) :
    (l.map (fun y => v * y)).sum = v * l.sum := by
  induction l with
  | nil => simp
  | cons x xs ih => simp [ih, mul_add]

lemma predQ_single (v : ℚ) (a n : Nat) (h : a < n) :
    predQ [v] a n = some v := by
  rw [predQ, broadcastMul_single]
  simp [map_mul_sum, oneHot_sum_lt a n h]

lemma tdErrorOf_single (td v : ℚ) (a n : Nat) (h : a < n) :
    tdErrorOf td [v] a n = some |td - v| := by
  rw [tdErrorOf, predQ_single v a n h]
  rfl

/-- Counterexample to claim C2 as stated: with the default layer sizes, the
critic head built at line 94 (`layer_sizes + [1]`) has output width 1, NOT
one output per action (the actor, line 89, does have width `act_size`; here
`act_size = 2`); consequently the one-hot "selection" is vacuous: the
selected `Q(s,a)` — and with it the whole td-error — is the same for both
actions of a two-action space. -/
theorem claim_C2_counterexample :
    criticOutWidth defaultLayerSizes = 1
    ∧ actorOutWidth defaultLayerSizes 2 = 2
    ∧ criticOutWidth defaultLayerSizes ≠ actorOutWidth defaultLayerSizes 2
    ∧ predQ [(5:ℚ)] 0 2 = some 5
    ∧ predQ [(5:ℚ)] 1 2 = some 5
    ∧ tdErrorOf 2 [(5:ℚ)] 0 2 = tdErrorOf 2 [(5:ℚ)] 1 2 := by
  refine ⟨by decide, by decide, by decide, ?_, ?_, ?_⟩
  · exact predQ_single 5 0 2 (by decide)
  · exact predQ_single 5 1 2 (by decide)
  · rw [tdErrorOf_single 2 5 0 2 (by decide),
      tdErrorOf_single 2 5 1 2 (by decide)]

/-- Claim C2 (amended): the critic network outputs a SINGLE value estimate
per state (its final layer has width 1 for every layer configuration), and
for every batch element the td-error is `|td_target − V(s)|` where `V(s)` is
that single critic output: the one-hot mask multiplication broadcasts the
width-1 output across the `n` actions and the subsequent sum collapses back
to it, so the result is independent of the taken action `a`. -/
theorem claim_C2_td_error_amended :
    (∀ layerSizes : List Nat, criticOutWidth layerSizes = 1)
    ∧ ∀ (v td : ℚ) (a n : Nat), a < n →
        predQ [v] a n = some v
        ∧ tdErrorOf td [v] a n = some |td - v| := by
  constructor
  · intro ls
    simp [criticOutWidth, mlpOutWidth]
  · intro v td a n h
    exact ⟨predQ_single v a n h, tdErrorOf_single td v a n h⟩

/-- Witness for the amended claim C2 at `v = 5`, `td = 2`, action 1 of 3. -/
theorem claim_C2_witness :
    1 < 3 ∧ predQ [(5:ℚ)] 1 3 = some 5
      ∧ tdErrorOf 2 [(5:ℚ)] 1 3 = some |(2:ℚ) - 5| :=
  ⟨by decide, (claim_C2_td_error_amended.2 5 2 1 3 (by decide)).1,
   (claim_C2_td_error_amended.2 5 2 1 3 (by decide)).2⟩

/-! ### Stop-gradient lemmas -/

lemma shielded_of_not_uses (sc : String) :
    ∀ e : Expr, usesScope sc e = false → scopeShielded sc e = true := by
  intro e
  induction e with
  | cst c => intro _; rfl
  | var sc' i => intro h; simp [usesScope] at h; simp [scopeShielded, h]
  | add e₁ e₂ ih₁ ih₂ =>
    intro h
    simp only [usesScope, Bool.or_eq_false_iff] at h
    simp [scopeShielded, ih₁ h.1, ih₂ h.2]
  | mul e₁ e₂ ih₁ ih₂ =>
    intro h
    simp only [usesScope, Bool.or_eq_false_iff] at h
    simp [scopeShielded, ih₁ h.1, ih₂ h.2]
  | stopGrad e ih => intro _; rfl

lemma gradE_eval_zero_of_shielded (sc : String) (i : Nat)
    (θ : String → Nat → ℚ) :
    ∀ e : Expr, scopeShielded sc e = true →
      evalE θ (gradE sc i e) = 0 := by
  intro e
  induction e with
  | cst c => intro _; rfl
  | var sc' i' =>
    intro h
    simp only [scopeShielded, Bool.not_eq_eq_eq_not, Bool.not_true,
      beq_eq_false_iff_ne, ne_eq] at h
    rw [gradE, if_neg]
    · rfl
    · intro hc
      exact h (hc.1.symm)
  | add e₁ e₂ ih₁ ih₂ =>
    intro h
    simp only [scopeShielded, Bool.and_eq_true] at h
    simp [gradE, evalE, ih₁ h.1, ih₂ h.2]
  | mul e₁ e₂ ih₁ ih₂ =>
    intro h
    simp only [scopeShielded, Bool.and_eq_true] at h
    simp [gradE, evalE, ih₁ h.1, ih₂ h.2]
  | stopGrad e ih => intro _; rfl

lemma sumE_shielded (sc : String) :
    ∀ l : List Expr, (∀ e ∈ l, scopeShielded sc e = true) →
      scopeShielded sc (sumE l) = true := by
  intro l
  induction l with
  | nil => intro _; rfl
  | cons e es ih =>
    intro h
    simp only [sumE, List.foldr_cons]
    have h1 : scopeShielded sc e = true := h e (by simp)
    have h2 : scopeShielded sc (sumE es) = true :=
      ih (fun x hx => h x (by simp [hx]))
    simp only [sumE] at h2
    simp [scopeShielded, h1, h2]

lemma zipWith_terms_shielded (sc : String) :
    ∀ (tdErrs xents : List Expr),
      (∀ x ∈ xents, usesScope sc x = false) →
      ∀ e ∈ List.zipWith (fun t x => Expr.mul (Expr.stopGrad t) x) tdErrs
          xents, scopeShielded sc e = true := by
  intro tdErrs
  induction tdErrs with
  | nil => intro xents hx e he; simp at he
  | cons t ts ih =>
    intro xents hx e he
    cases xents with
    | nil => simp at he
    | cons x xs =>
      simp only [List.zipWith_cons_cons, List.mem_cons] at he
      rcases he with rfl | htail
      · simp [scopeShielded, shielded_of_not_uses sc x (hx x (by simp))]
      · exact ih xs (fun y hy => hx y (by simp [hy])) e htail

/-- Claim C5: the gradient of the actor loss with respect to any critic
parameter is zero for every batch: the td-error factors sit behind
`stop_gradient`, and the cross-entropy factors touch only actor-scope
parameters.  Moreover the actor's `apply_gradients` step, which updates
exactly the variables collected from the `actor` scope, leaves every critic
parameter unchanged, and the two scope-collected variable sets are
disjoint. -/
theorem claim_C5_stop_gradient :
    (∀ (tdErrs xents : List Expr),
        (∀ x ∈ xents, usesScope "critic" x = false) →
        ∀ (θ : String → Nat → ℚ) (i : Nat),
          evalE θ (gradE "critic" i (lossActorE tdErrs xents)) = 0)
    ∧ (∀ (all : List (String × Nat)) (newVal θ : String → Nat → ℚ)
        (i : Nat),
        applyGradients (scopeVars "actor" all) newVal θ "critic" i =
          θ "critic" i)
    ∧ (∀ (all : List (String × Nat)) (v : String × Nat),
        v ∈ scopeVars "actor" all → v ∉ scopeVars "critic" all) := by
  refine ⟨?_, ?_, ?_⟩
  · intro tdErrs xents hx θ i
    apply gradE_eval_zero_of_shielded
    have hterms := zipWith_terms_shielded "critic" tdErrs xents hx
    have hsum := sumE_shielded "critic" _ hterms
    simp [lossActorE, meanE, scopeShielded, hsum]
  · intro all newVal θ i
    rw [applyGradients, if_neg]
    intro hmem
    have := List.mem_filter.mp hmem
    simp at this
  · intro all v hv hv'
    have h1 := (List.mem_filter.mp hv).2
    have h2 := (List.mem_filter.mp hv').2
    simp at h1 h2
    rw [h1] at h2
    exact absurd h2 (by decide)

/-- Witness for claim C5: one-element batch, td-error over the critic scope,
cross-entropy over the actor scope, constant parameter assignment. -/
theorem claim_C5_witness :
    (∀ x ∈ [Expr.var "actor" 0], usesScope "critic" x = false)
    ∧ evalE (fun _ _ => (2:ℚ))
        (gradE "critic" 0
          (lossActorE [Expr.var "critic" 0] [Expr.var "actor" 0])) = 0 := by
  have hx : ∀ x ∈ [Expr.var "actor" 0], usesScope "critic" x = false := by
    intro x hx
    rw [List.mem_singleton] at hx
    subst hx
    rfl
  exact ⟨hx,
    claim_C5_stop_gradient.1 [Expr.var "critic" 0] [Expr.var "actor" 0] hx
      (fun _ _ => 2) 0⟩
